import Mathlib

set_option linter.unusedVariables false

/-!
Shallow embedding of the reward-assignment batch worker of
improveai/decision-service-gateway: the sliding-window reward engine
(`src/worker.py`, functions `update_listeners` and
`assign_rewards_to_decisions`), the directory sharding
(`identify_dirs_to_process` with MurmurHash3_x86_32), and the history
loader / validator (`src/assign_rewards/utils.py`, functions
`load_records`, `filter_valid_records`, `validate_record`).

Numbers are modelled as rationals (Python floats), timestamps as
integers (parsed absolute instants), JSON objects reachable by the
engine as association lists.
-/

/-- Scalar JSON values as they reach `float(reward)` inside
`update_listeners`: numbers, booleans, null, strings. -/
inductive PyVal where
  | pnum (q : ℚ)
  | pbool (b : Bool)
  | pnone
  | pstr (s : String)
deriving DecidableEq, Repr

/-- Value of one decimal digit character. -/
def digitVal (c : Char) : Nat := c.toNat - 48

/-- Accumulate a digit string into a natural number. -/
def digitsVal (cs : List Char) : Nat :=
  cs.foldl (fun acc c => acc * 10 + digitVal c) 0

/-- Model of Python `float(s)` on a plain decimal string literal:
optional surrounding spaces, optional sign, integer digits, optional
fractional part; anything else (in particular a non-numeric string
such as "abc") raises `ValueError`, modelled as `none`. -/
def parseDecimal (s : String) : Option ℚ :=
  let cs := ((s.data.dropWhile (· = ' ')).reverse.dropWhile (· = ' ')).reverse
  let signed : Bool × List Char :=
    match cs with
    | '-' :: t => (true, t)
    | '+' :: t => (false, t)
    | _ => (false, cs)
  let body := signed.2
  let intPart := body.takeWhile (· ≠ '.')
  let restPart := body.dropWhile (· ≠ '.')
  let fracPart :=
    match restPart with
    | [] => some ([] : List Char)
    | '.' :: t => if t.all (· ≠ '.') then some t else none
    | _ => none
  match fracPart with
  | none => none
  | some frac =>
    if intPart.all Char.isDigit && frac.all Char.isDigit &&
        !(intPart.isEmpty && frac.isEmpty) then
      let n : ℚ := (digitsVal (intPart ++ frac) : ℚ) / ((10 : ℚ) ^ frac.length)
      some (if signed.1 then -n else n)
    else none

/-- Model of Python `float(x)`: numbers pass through, booleans coerce
to 1/0, `None` raises `TypeError` (`none`), strings go through the
decimal parse of `float(str)`. -/
def pyFloat : PyVal → Option ℚ
  | .pnum q => some q
  | .pbool b => some (if b then 1 else 0)
  | .pnone => none
  | .pstr s => parseDecimal s

/-- A history record as consumed by `assign_rewards_to_decisions`:
exactly the JSON fields the engine reads.  `timestamp` is the parsed
absolute instant, `rewards` the mapping of a `type = "rewards"` record,
`properties` the object of a `type = "event"` record, `reward` the
numeric field `update_listeners` writes (`none` = key absent), and
`payload` stands for every remaining field, preserved verbatim. -/
structure Rec where
  rtype : Option String
  reward_key : Option String
  rewards : Option (List (String × PyVal))
  properties : Option (List (String × PyVal))
  timestamp : Int
  reward : Option ℚ
  payload : String
deriving DecidableEq, Repr

/-- Configuration the engine reads from its config module / environment:
the reward window (`DEFAULT_REWARD_WINDOW_IN_SECONDS`), the default
reward key (`DEFAULT_REWARD_KEY`) and the default event value
(`DEFAULT_EVENTS_REWARD_VALUE`).  The config module imported by
`worker.py` is not among the sources, so these stay parameters. -/
structure Config where
  window : Int
  defaultRewardKey : String
  defaultEventValue : ℚ
deriving Repr

/-- Modelled from the spec: `DEFAULT_REWARD_VALUE` is imported by
`worker.py` from a config module that is not part of the sources; the
spec fixes the default-when-missing reward to 0 ("A decision with no
matching contributions emits `reward = 0`"). -/
def DEFAULT_REWARD_VALUE : ℚ := 0

/-- Python `dict.get(k)` over an insertion-ordered association list. -/
def lookupKey {α : Type} : List (String × α) → String → Option α
  | [], _ => none
  | kv :: rest, k => if kv.1 = k then some kv.2 else lookupKey rest k

/-- The engine state: `decision_records_by_reward_key`, an
insertion-ordered dictionary from reward key to listener list. -/
abbrev WState := List (String × List Rec)

/-- Python `dict[k] = v`: replace in place, or append a new key at the
end of the insertion order. -/
def dictSet : WState → String → List Rec → WState
  | [], k, v => [(k, v)]
  | kv :: rest, k, v => if kv.1 = k then (k, v) :: rest else kv :: dictSet rest k v

/-- `record.get('reward_key', DEFAULT_REWARD_KEY)` for a decision. -/
def dKey (cfg : Config) (r : Rec) : String := r.reward_key.getD cfg.defaultRewardKey

/-- `record.get('properties', {'properties': {}}).get('value',
DEFAULT_EVENTS_REWARD_VALUE)` for an event record. -/
def eventValue (cfg : Config) (r : Rec) : PyVal :=
  match r.properties with
  | some props => (lookupKey props "value").getD (.pnum cfg.defaultEventValue)
  | none => .pnum cfg.defaultEventValue

/-- The expiry test of `update_listeners`:
`listener_timestamp + window < record_timestamp`. -/
def expiredB (w lts rts : Int) : Bool := decide (lts + w < rts)

/-- `listener['reward'] = listener.get('reward', DEFAULT_REWARD_VALUE)
+ float(reward)`. -/
def addReward (q : ℚ) (L : Rec) : Rec :=
  { L with reward := some (L.reward.getD DEFAULT_REWARD_VALUE + q) }

/-- `update_listeners` of `worker.py`: walk the listener list, delete
each listener whose window has passed, add `float(reward)` to each
survivor.  `none` models the `ValueError`/`TypeError` that
`float(reward)` raises, which occurs exactly when some listener
survives (the conversion sits inside the per-listener loop body). -/
def update_listeners (w : Int) (listeners : List Rec) (rts : Int) (v : PyVal) :
    Option (List Rec) :=
  match pyFloat v with
  | some q =>
    some (listeners.filterMap
      (fun L => if expiredB w L.timestamp rts then none else some (addReward q L)))
  | none =>
    if listeners.any (fun L => !expiredB w L.timestamp rts) then none
    else some []

/-- The `for reward_key, reward in record['rewards'].items()` loop of the
`type == 'rewards'` branch: each entry updates the listeners of its own
bucket; a key with no bucket updates a fresh empty list, leaving the
dictionary unchanged. -/
def runEntries (cfg : Config) (rts : Int) (st : WState) :
    List (String × PyVal) → Option WState
  | [] => some st
  | e :: rest =>
    match lookupKey st e.1 with
    | some listeners =>
      match update_listeners cfg.window listeners rts e.2 with
      | some l' => runEntries cfg rts (dictSet st e.1 l') rest
      | none => none
    | none =>
      match update_listeners cfg.window [] rts e.2 with
      | some _ => runEntries cfg rts st rest
      | none => none

/-- The `for reward_key, listeners in decision_records_by_reward_key.items()`
loop of the `type == 'event'` branch: every bucket is updated in place. -/
def mapBuckets (cfg : Config) (rts : Int) (v : PyVal) : WState → Option WState
  | [] => some []
  | kv :: rest =>
    match update_listeners cfg.window kv.2 rts v with
    | some l' => (mapBuckets cfg rts v rest).map (fun rest' => (kv.1, l') :: rest')
    | none => none

/-- One iteration of the record loop of `assign_rewards_to_decisions`:
decisions enrol as listeners of their bucket, rewards records update the
buckets named by their `rewards` mapping (`record['rewards']` raises if
the key is absent), events update every bucket, any other `type` raises
`InvalidType`. -/
def stepRecord (cfg : Config) (st : WState) (r : Rec) : Option WState :=
  if r.rtype = some "decision" then
    some (dictSet st (dKey cfg r) (((lookupKey st (dKey cfg r)).getD []) ++ [r]))
  else if r.rtype = some "rewards" then
    match r.rewards with
    | some entries => runEntries cfg r.timestamp st entries
    | none => none
  else if r.rtype = some "event" then
    mapBuckets cfg r.timestamp (eventValue cfg r) st
  else none

/-- The record loop of `assign_rewards_to_decisions`; `none` models an
uncaught exception. -/
def runRecords (cfg : Config) (st : WState) : List Rec → Option WState
  | [] => some st
  | r :: rest =>
    match stepRecord cfg st r with
    | some st' => runRecords cfg st' rest
    | none => none

/-- `assign_rewards_to_decisions` of `worker.py`: fold the record list
into `decision_records_by_reward_key`, starting from an empty dict, and
return the dict.  Note that the stored listener lists ARE the returned
bucket lists (they alias in the Python source), so listener deletion
removes records from the returned value. -/
def assign_rewards_to_decisions (cfg : Config) (records : List Rec) :
    Option WState :=
  runRecords cfg [] records

/-- Is `r` a decision record that lands in bucket `k`? -/
def isDecisionFor (cfg : Config) (k : String) (r : Rec) : Bool :=
  r.rtype = some "decision" && dKey cfg r = k

/-- The raw value that record `r` contributes towards bucket `k`, if
any: a matching entry of a rewards record, or the event value of an
event record (events touch every bucket). -/
def touchVal (cfg : Config) (k : String) (r : Rec) : Option PyVal :=
  if r.rtype = some "rewards" then lookupKey (r.rewards.getD []) k
  else if r.rtype = some "event" then some (eventValue cfg r)
  else none

/-- The contributions towards bucket `k` among `rest` that fall inside
the window of a decision at instant `D.timestamp`
(`record_timestamp ≤ listener_timestamp + window`). -/
def inWindowVals (cfg : Config) (k : String) (D : Rec) (rest : List Rec) :
    List PyVal :=
  rest.filterMap (fun r =>
    (touchVal cfg k r).bind (fun v =>
      if r.timestamp ≤ D.timestamp + cfg.window then some v else none))

/-- Does some record of `rest` expire (delete) a listener of bucket `k`
sitting at instant `D.timestamp`? -/
def expiresOn (cfg : Config) (k : String) (D : Rec) (rest : List Rec) : Bool :=
  rest.any (fun r =>
    (touchVal cfg k r).isSome && decide (D.timestamp + cfg.window < r.timestamp))

/-- Sum of contributions, each coerced by `float` (defaulting to 0 for
a value that would not coerce; under a successful run every summed
value does coerce, see `mapPyFloat_eq`). -/
def defaultedSum (vs : List PyVal) : ℚ :=
  (vs.map (fun v => (pyFloat v).getD 0)).sum

/-- Coerce a whole contribution list through `float`; `none` as soon as
one value does not coerce. -/
def mapPyFloat : List PyVal → Option (List ℚ)
  | [] => some []
  | v :: vs =>
    match pyFloat v with
    | some q => (mapPyFloat vs).map (fun qs => q :: qs)
    | none => none

/-- The final form of a listener `D` after all of `rest` has been
processed: reward accumulated over its in-window contributions, the
field untouched when there are none. -/
def accumL (cfg : Config) (k : String) (D : Rec) (rest : List Rec) : Rec :=
  if inWindowVals cfg k D rest = [] then D
  else
    let q := D.reward.getD DEFAULT_REWARD_VALUE + defaultedSum (inWindowVals cfg k D rest)
    { D with reward := some q }

/-- The decisions of `records` that end up (still live) in bucket `k`:
each decision for `k` that no later record expires, with its
accumulated reward. -/
def newSurvivors (cfg : Config) (k : String) : List Rec → List Rec
  | [] => []
  | r :: rest =>
    (if isDecisionFor cfg k r && !expiresOn cfg k r rest then
      [accumL cfg k r rest] else []) ++ newSurvivors cfg k rest

/-- Declarative final contents of bucket `k`: the still-live old
listeners of `cur`, accumulated, followed by the surviving decisions of
`records`. -/
def bucketFinal (cfg : Config) (k : String) (cur records : List Rec) : List Rec :=
  cur.filterMap (fun L =>
    if expiresOn cfg k L records then none else some (accumL cfg k L records))
    ++ newSurvivors cfg k records

/-- The effect of one record on bucket `k` alone (`none` in the outer
option models an exception, the inner option models the bucket not yet
existing in the dictionary). -/
def bucketStep (cfg : Config) (k : String) (cur? : Option (List Rec)) (r : Rec) :
    Option (Option (List Rec)) :=
  if r.rtype = some "decision" then
    (if dKey cfg r = k then some (some (cur?.getD [] ++ [r])) else some cur?)
  else if r.rtype = some "rewards" then
    match r.rewards with
    | some entries =>
      match lookupKey entries k with
      | some v =>
        match cur? with
        | some cur => (update_listeners cfg.window cur r.timestamp v).map some
        | none => (update_listeners cfg.window [] r.timestamp v).map (fun _ => none)
      | none => some cur?
    | none => none
  else if r.rtype = some "event" then
    match cur? with
    | some cur =>
      (update_listeners cfg.window cur r.timestamp (eventValue cfg r)).map some
    | none => some none
  else none

/-- Iterate `bucketStep` over a record list. -/
def runBucket (cfg : Config) (k : String) (cur? : Option (List Rec)) :
    List Rec → Option (Option (List Rec))
  | [] => some cur?
  | r :: rest =>
    match bucketStep cfg k cur? r with
    | some mid? => runBucket cfg k mid? rest
    | none => none

/-- Boolean check that a record list is sorted non-decreasingly by
timestamp. -/
def sortedByTimestamp : List Rec → Bool
  | [] => true
  | [_] => true
  | a :: b :: t => decide (a.timestamp ≤ b.timestamp) && sortedByTimestamp (b :: t)

/-- Boolean membership in a key list. -/
def containsB : List String → String → Bool
  | [], _ => false
  | x :: t, k => (x = k) || containsB t k

/-- Boolean key-uniqueness (a Python dict cannot carry a key twice). -/
def nodupB : List String → Bool
  | [] => true
  | k :: rest => !(containsB rest k) && nodupB rest

/-- Well-formedness of one record: the `rewards` mapping of a rewards
record, being a JSON object, has pairwise distinct keys. -/
def recWFB (r : Rec) : Bool :=
  match r.rewards with
  | some es => nodupB (es.map Prod.fst)
  | none => true

/-- Well-formedness of a record list. -/
def recsWFB (l : List Rec) : Bool := l.all recWFB

/-- The reward the frozen claim C1 ascribes to a decision, following
the spec's words: the defaulted sum of the contributions matching
bucket `k` whose timestamp `t` satisfies `t_D < t ≤ t_D + W` (strictly
later than the decision). -/
def claimWindowVals (cfg : Config) (k : String) (D : Rec) (records : List Rec) :
    List PyVal :=
  records.filterMap (fun r =>
    (touchVal cfg k r).bind (fun v =>
      if D.timestamp < r.timestamp ∧ r.timestamp ≤ D.timestamp + cfg.window then
        some v else none))

/-- Claim C1's reward value, per the spec's words. -/
def claimReward (cfg : Config) (k : String) (D : Rec) (records : List Rec) : ℚ :=
  defaultedSum (claimWindowVals cfg k D records)

/-! ### History loader (`assign_rewards/utils.py`, `load_records`) -/

/-- The possible shapes of a record's `timestamp` field once a line has
parsed as JSON: key absent (the uncaught `KeyError` of
`record[TIMESTAMP_KEY]`), present but not parseable by
`dateutil.parser.parse` (a caught `ValueError`), or parsed. -/
inductive TsField where
  | missing
  | unparseable
  | parsed (t : Int)
deriving DecidableEq, Repr

/-- A record as it comes out of `json.loads` on one line: its
`message_id` (absent = the uncaught `KeyError` of
`record[MESSAGE_ID_KEY]`), its `timestamp` field, and the rest of the
object, opaque here. -/
structure RawRec where
  msgId : Option String
  ts : TsField
  body : String
deriving DecidableEq, Repr

/-- One line of a jsonlines file: either it fails `json.loads`
(a caught `JSONDecodeError`) or it parses to an object. -/
inductive Line where
  | badJson
  | jrec (r : RawRec)
deriving DecidableEq, Repr

/-- A gzipped input file: either the gzip envelope is corrupt
(`zlib.error` / `EOFError` / `BadGzipFile` out of `readlines`), or it
decompresses to a list of lines. -/
inductive GFile where
  | corrupt
  | ok (lines : List Line)
deriving DecidableEq, Repr

/-- The stats counters `load_records` touches. -/
structure Stats where
  duplicates : Nat
  uniques : Nat
  unrecoverable : Nat
deriving DecidableEq, Repr

/-- What `load_records` leaves behind: the recovered records, the grown
`message_ids` set, the updated stats, and whether the file was copied
to the unrecoverable directory. -/
structure LoadResult where
  records : List RawRec
  messageIds : List String
  stats : Stats
  quarantined : Bool
deriving DecidableEq, Repr

/-- The per-line loop of `load_records`, carrying the accumulated
records, the message-id set, the duplicate count and the sticky `error`
flag.  `none` models an exception that escapes the function (the
`KeyError` of a missing `timestamp` or `message_id`). -/
def loadLoop (msgIds : List String) (dups : Nat) (err : Bool) (acc : List RawRec) :
    List Line → Option (List RawRec × List String × Nat × Bool)
  | [] => some (acc, msgIds, dups, err)
  | .badJson :: rest => loadLoop msgIds dups true acc rest
  | .jrec r :: rest =>
    match r.ts with
    | .missing => none
    | .unparseable => loadLoop msgIds dups true acc rest
    | .parsed _ =>
      match r.msgId with
      | none => none
      | some m =>
        if m ∈ msgIds then loadLoop msgIds (dups + 1) err acc rest
        else loadLoop (m :: msgIds) dups err (acc ++ [r]) rest

/-- `load_records` of `assign_rewards/utils.py`: run the line loop (or
catch the gzip failure), then — if the sticky `error` is set, from a
gzip failure OR any caught per-line error — bump the unrecoverable
counter and copy the file to the unrecoverable directory
(`quarantined`), and finally count the recovered records. -/
def load_records (file : GFile) (msgIds : List String) (st : Stats) :
    Option LoadResult :=
  match file with
  | .corrupt =>
    some ⟨[], msgIds,
      ⟨st.duplicates, st.uniques, st.unrecoverable + 1⟩, true⟩
  | .ok lines =>
    (loadLoop msgIds 0 false [] lines).map (fun out =>
      ⟨out.1, out.2.1,
        ⟨st.duplicates + out.2.2.1,
         st.uniques + out.1.length,
         st.unrecoverable + (if out.2.2.2 then 1 else 0)⟩,
        out.2.2.2⟩)

/-- Does a line set the sticky `error` flag of `load_records`?  (A JSON
parse failure or an unparseable timestamp.) -/
def lineErr : Line → Bool
  | .badJson => true
  | .jrec r => r.ts = TsField.unparseable

/-- The records a well-behaved run of the line loop keeps: lines that
parse, with a parseable timestamp and an unseen message id. -/
def specKept (msgIds : List String) : List Line → List RawRec
  | [] => []
  | .badJson :: rest => specKept msgIds rest
  | .jrec r :: rest =>
    match r.ts with
    | .parsed _ =>
      match r.msgId with
      | some m =>
        if m ∈ msgIds then specKept msgIds rest
        else r :: specKept (m :: msgIds) rest
      | none => []
    | _ => specKept msgIds rest

/-! ### Validator (`assign_rewards/utils.py`, `validate_record` /
`filter_valid_records`) -/

/-- A record as `validate_record` sees it: the fields it inspects
(`timestamp`, `type`, `history_id`, `model`) plus the `count` field the
frozen claim C7 speaks about — which the source never reads. -/
structure VRec where
  timestamp : Option String
  rtype : Option String
  history_id : Option String
  model : Option String
  count : Option PyVal
  body : String
deriving DecidableEq, Repr

/-- Python truthiness of the `history_id` loop variable
(`if history_id:`): `None` and the empty string are falsy. -/
def truthy : Option String → Bool
  | none => false
  | some s => s ≠ ""

/-- `validate_record` of `assign_rewards/utils.py`: `true` = the record
passes, `false` = a `ValueError` is raised.  Checks key presence of
`timestamp`/`type`/`history_id`, presence of `model` for decisions, and
the history-id latch / SHA-256 check (the hash function `hashlib.sha256
... hexdigest` is an external primitive, passed as a parameter). -/
def validate_record (hash : String → String) (r : VRec)
    (history_id : Option String) (hashed_history_id : String) : Bool :=
  if r.timestamp.isNone || r.rtype.isNone || r.history_id.isNone then false
  else if r.rtype = some "decision" && r.model.isNone then false
  else if truthy history_id then decide (history_id = r.history_id)
  else decide (hash (r.history_id.getD "") = hashed_history_id)

/-- The loop of `filter_valid_records`: keep records that validate,
latching `history_id` from the first kept record. -/
def filterLoop (hash : String → String) (hashed_history_id : String)
    (history_id : Option String) : List VRec → List VRec
  | [] => []
  | r :: rest =>
    if validate_record hash r history_id hashed_history_id then
      r :: filterLoop hash hashed_history_id
            (if truthy history_id then history_id else r.history_id) rest
    else filterLoop hash hashed_history_id history_id rest

/-- `filter_valid_records` of `assign_rewards/utils.py`. -/
def filter_valid_records (hash : String → String) (hashed_history_id : String)
    (records : List VRec) : List VRec :=
  filterLoop hash hashed_history_id none records

/-! ### Shard planner (`worker.py`, `identify_dirs_to_process`) with
MurmurHash3 x86 32-bit, as `mmh3.hash(s, signed=False)` computes it. -/

/-- Truncate to 32 bits. -/
def m32 (x : Nat) : Nat := x % 4294967296

/-- 32-bit left rotation (argument below 2^32). -/
def rotl32 (x r : Nat) : Nat := m32 ((x <<< r) ||| (x >>> (32 - r)))

/-- MurmurHash3 mixing of one 32-bit block into the key constant. -/
def mmixK (k : Nat) : Nat :=
  m32 (rotl32 (m32 (k * 0xcc9e2d51)) 15 * 0x1b873593)

/-- MurmurHash3 mixing of one mixed block into the hash state. -/
def mmixH (h k : Nat) : Nat :=
  m32 (rotl32 (h ^^^ mmixK k) 13 * 5 + 0xe6546b64)

/-- Consume the full 4-byte little-endian blocks, returning the state
and the remaining tail bytes. -/
def murmurBody (h : Nat) : List Nat → Nat × List Nat
  | b0 :: b1 :: b2 :: b3 :: rest =>
    murmurBody (mmixH h (b0 ||| (b1 <<< 8) ||| (b2 <<< 16) ||| (b3 <<< 24))) rest
  | tail => (h, tail)

/-- Little-endian value of the 1–3 tail bytes. -/
def tailK : List Nat → Nat
  | [b0] => b0
  | [b0, b1] => b0 ||| (b1 <<< 8)
  | [b0, b1, b2] => b0 ||| (b1 <<< 8) ||| (b2 <<< 16)
  | _ => 0

/-- MurmurHash3 finalization mix. -/
def fmix32 (x : Nat) : Nat :=
  let h1 := x ^^^ (x >>> 16)
  let h2 := m32 (h1 * 0x85ebca6b)
  let h3 := h2 ^^^ (h2 >>> 13)
  let h4 := m32 (h3 * 0xc2b2ae35)
  h4 ^^^ (h4 >>> 16)

/-- MurmurHash3 x86 32-bit of a byte string. -/
def murmur3x86_32 (bytes : List Nat) (seed : Nat) : Nat :=
  let bt := murmurBody (m32 seed) bytes
  let h := if bt.2 = [] then bt.1 else bt.1 ^^^ mmixK (tailK bt.2)
  fmix32 (h ^^^ m32 bytes.length)

/-- UTF-8 encoding of one character (code point to bytes). -/
def utf8Char (c : Char) : List Nat :=
  let n := c.toNat
  if n < 0x80 then [n]
  else if n < 0x800 then
    [0xC0 ||| (n >>> 6), 0x80 ||| (n &&& 0x3F)]
  else if n < 0x10000 then
    [0xE0 ||| (n >>> 12), 0x80 ||| ((n >>> 6) &&& 0x3F), 0x80 ||| (n &&& 0x3F)]
  else
    [0xF0 ||| (n >>> 18), 0x80 ||| ((n >>> 12) &&& 0x3F),
     0x80 ||| ((n >>> 6) &&& 0x3F), 0x80 ||| (n &&& 0x3F)]

/-- UTF-8 bytes of a string, as `mmh3.hash` encodes its input. -/
def utf8Bytes (s : String) : List Nat := (s.data.map utf8Char).flatten

/-- `mmh3.hash(d.name[:2], signed=False)` with seed 0: the shard hash
of a directory name's first two characters. -/
def dirShardHash (name : String) : Nat :=
  murmur3x86_32 (utf8Bytes (String.mk (name.data.take 2))) 0

/-- `identify_dirs_to_process` of `worker.py`, on the names of the
subdirectories of the input dir: keep the directories whose shard hash
is congruent to this node's id. -/
def identify_dirs_to_process (dirs : List String) (node_id node_count : Nat) :
    List String :=
  dirs.filter (fun d => dirShardHash d % node_count = node_id)

/-! ### Concrete instances used by the counterexamples and witnesses -/

/-- A concrete configuration: 60-second window, default key "rk",
default event value 0. -/
def cfgEx : Config := ⟨60, "rk", 0⟩

/-- A concrete decision record with reward key `k` at instant `t`. -/
def exDecision (k : String) (t : Int) : Rec :=
  ⟨some "decision", some k, none, none, t, none, "d"⟩

/-- A concrete rewards record at instant `t`. -/
def exRewards (t : Int) (es : List (String × PyVal)) : Rec :=
  ⟨some "rewards", none, some es, none, t, none, "r"⟩

/-- A concrete event record at instant `t`. -/
def exEvent (t : Int) (props : Option (List (String × PyVal))) : Rec :=
  ⟨some "event", none, none, props, t, none, "e"⟩

/-- A concrete decision-typed record whose `model` is present but empty
and whose `count` is a string. -/
def vEx : VRec := ⟨some "t", some "decision", some "h", some "", some (.pstr "x"), "v"⟩

/-- A concrete decision-typed record with a model and no `count`. -/
def vEx2 : VRec := ⟨some "t2", some "decision", some "h2", some "m", none, "w"⟩

/-- Lines of a file whose middle line fails `json.loads`. -/
def exLinesC5 : List Line :=
  [.jrec ⟨some "m1", .parsed 1, "b1"⟩, .badJson, .jrec ⟨some "m2", .parsed 2, "b2"⟩]

/-! ### Dictionary and update lemmas -/

theorem lookupKey_dictSet_self (st : WState) (k : String) (v : List Rec) :
    lookupKey (dictSet st k v) k = some v := by
  induction st with
  | nil => simp [dictSet, lookupKey]
  | cons kv rest ih =>
    by_cases h : kv.1 = k
    · simp [dictSet, h, lookupKey]
    · simp [dictSet, h, lookupKey, ih]

theorem lookupKey_dictSet_ne (st : WState) (k : String) (v : List Rec)
    (k' : String) (h : k ≠ k') :
    lookupKey (dictSet st k v) k' = lookupKey st k' := by
  induction st with
  | nil => simp [dictSet, lookupKey, h]
  | cons kv rest ih =>
    by_cases hk : kv.1 = k
    · subst hk
      simp only [dictSet, if_pos rfl, lookupKey, if_neg h]
    · simp [dictSet, hk, lookupKey, ih]

theorem update_listeners_nil (w rts : Int) (v : PyVal) :
    update_listeners w [] rts v = some [] := by
  cases h : pyFloat v <;> simp [update_listeners, h]

theorem containsB_false_lookup {α : Type} (l : List (String × α)) (k : String)
    (h : containsB (l.map Prod.fst) k = false) : lookupKey l k = none := by
  induction l with
  | nil => rfl
  | cons kv rest ih =>
    simp [containsB] at h
    simp [lookupKey, h.1, ih h.2]

theorem runEntries_allNone (cfg : Config) (ts : Int) :
    ∀ (entries : List (String × PyVal)) (st : WState),
    (∀ e ∈ entries, lookupKey st e.1 = none) →
    runEntries cfg ts st entries = some st := by
  intro entries
  induction entries with
  | nil => intro st h; rfl
  | cons e rest ih =>
    intro st h
    have he : lookupKey st e.1 = none := h e (List.mem_cons_self e rest)
    simp [runEntries, he, update_listeners_nil]
    exact ih st (fun e' he' => h e' (List.mem_cons_of_mem e he'))

theorem runEntries_lookup (cfg : Config) (ts : Int) :
    ∀ (entries : List (String × PyVal)) (st st' : WState) (k : String),
    runEntries cfg ts st entries = some st' →
    nodupB (entries.map Prod.fst) = true →
    (lookupKey entries k = none → lookupKey st' k = lookupKey st k) ∧
    (∀ v, lookupKey entries k = some v →
      (lookupKey st k = none → lookupKey st' k = none) ∧
      (∀ l, lookupKey st k = some l →
        ∃ l', update_listeners cfg.window l ts v = some l' ∧
          lookupKey st' k = some l')) := by
  intro entries
  induction entries with
  | nil =>
    intro st st' k hrun hnd
    simp [runEntries] at hrun
    subst hrun
    constructor
    · intro _; rfl
    · intro v hv; simp [lookupKey] at hv
  | cons e rest ih =>
    intro st st' k hrun hnd
    simp only [List.map_cons, nodupB, Bool.and_eq_true, Bool.not_eq_true'] at hnd
    obtain ⟨hc, hnd'⟩ := hnd
    by_cases hek : e.1 = k
    · subst hek
      have hrest : lookupKey rest e.1 = none := by
        apply containsB_false_lookup
        exact hc
      cases hsk : lookupKey st e.1 with
      | some listeners =>
        cases hup : update_listeners cfg.window listeners ts e.2 with
        | none => simp [runEntries, hsk, hup] at hrun
        | some l' =>
          have hrun' : runEntries cfg ts (dictSet st e.1 l') rest = some st' := by
            simpa [runEntries, hsk, hup] using hrun
          have hmid := (ih (dictSet st e.1 l') st' e.1 hrun' hnd').1 hrest
          constructor
          · intro habs; simp [lookupKey] at habs
          · intro v hv
            simp [lookupKey] at hv
            subst hv
            constructor
            · intro habs; exact (Option.some_ne_none listeners habs).elim
            · intro l hl
              obtain rfl : listeners = l := Option.some.inj hl
              exact ⟨l', hup, by rw [hmid, lookupKey_dictSet_self]⟩
      | none =>
        have hrun' : runEntries cfg ts st rest = some st' := by
          simpa [runEntries, hsk, update_listeners_nil] using hrun
        have hmid := (ih st st' e.1 hrun' hnd').1 hrest
        constructor
        · intro habs; simp [lookupKey] at habs
        · intro v hv
          constructor
          · intro _; rw [hmid, hsk]
          · intro l hl; simp [hsk] at hl
    · have hcons : lookupKey (e :: rest) k = lookupKey rest k := by
        simp [lookupKey, hek]
      cases hsk : lookupKey st e.1 with
      | some listeners =>
        cases hup : update_listeners cfg.window listeners ts e.2 with
        | none => simp [runEntries, hsk, hup] at hrun
        | some l' =>
          have hrun' : runEntries cfg ts (dictSet st e.1 l') rest = some st' := by
            simpa [runEntries, hsk, hup] using hrun
          have hkeep : lookupKey (dictSet st e.1 l') k = lookupKey st k :=
            lookupKey_dictSet_ne st e.1 l' k hek
          have hrec := ih (dictSet st e.1 l') st' k hrun' hnd'
          rw [hkeep] at hrec
          rw [hcons]
          exact hrec
      | none =>
        have hrun' : runEntries cfg ts st rest = some st' := by
          simpa [runEntries, hsk, update_listeners_nil] using hrun
        rw [hcons]
        exact ih st st' k hrun' hnd'

theorem mapBuckets_lookup (cfg : Config) (ts : Int) (v : PyVal) :
    ∀ (st st' : WState) (k : String),
    mapBuckets cfg ts v st = some st' →
    (lookupKey st k = none → lookupKey st' k = none) ∧
    (∀ l, lookupKey st k = some l →
      ∃ l', update_listeners cfg.window l ts v = some l' ∧
        lookupKey st' k = some l') := by
  intro st
  induction st with
  | nil =>
    intro st' k hmb
    simp [mapBuckets] at hmb
    subst hmb
    exact ⟨fun _ => rfl, fun l hl => by cases hl⟩
  | cons kv rest ih =>
    intro st' k hmb
    cases hup : update_listeners cfg.window kv.2 ts v with
    | none => simp [mapBuckets, hup] at hmb
    | some l' =>
      cases hmr : mapBuckets cfg ts v rest with
      | none => simp [mapBuckets, hup, hmr] at hmb
      | some rest' =>
        have hst' : st' = (kv.1, l') :: rest' := by
          simp [mapBuckets, hup, hmr] at hmb
          exact hmb.symm
        subst hst'
        by_cases hk : kv.1 = k
        · subst hk
          constructor
          · intro habs; simp [lookupKey] at habs
          · intro l hl
            simp [lookupKey] at hl
            subst hl
            exact ⟨l', hup, by simp [lookupKey]⟩
        · have h1 : lookupKey ((kv.1, kv.2) :: rest) k = lookupKey rest k := by
            simp [lookupKey, hk]
          have h2 : lookupKey ((kv.1, l') :: rest') k = lookupKey rest' k := by
            simp [lookupKey, hk]
          rw [h2]
          have := ih rest' k hmr
          simpa [lookupKey, hk] using this

theorem runRecords_bucket (cfg : Config) :
    ∀ (records : List Rec) (st st' : WState),
    recsWFB records = true → runRecords cfg st records = some st' →
    ∀ k, runBucket cfg k (lookupKey st k) records = some (lookupKey st' k) := by
  intro records
  induction records with
  | nil =>
    intro st st' hwf hrun k
    simp [runRecords] at hrun
    subst hrun
    rfl
  | cons r rest ih =>
    intro st st' hwf hrun k
    simp only [recsWFB, List.all_cons, Bool.and_eq_true] at hwf
    obtain ⟨hwfr, hwf'⟩ := hwf
    cases hstep : stepRecord cfg st r with
    | none => simp [runRecords, hstep] at hrun
    | some mid =>
      have hrun' : runRecords cfg mid rest = some st' := by
        simpa [runRecords, hstep] using hrun
      have hb : bucketStep cfg k (lookupKey st k) r = some (lookupKey mid k) := by
        by_cases hd : r.rtype = some "decision"
        · have hmid : mid = dictSet st (dKey cfg r)
              (((lookupKey st (dKey cfg r)).getD []) ++ [r]) := by
            simp [stepRecord, hd] at hstep
            exact hstep.symm
          by_cases hkk : dKey cfg r = k
          · subst hkk
            simp [bucketStep, hd, hmid, lookupKey_dictSet_self]
          · simp [bucketStep, hd, hkk, hmid,
              lookupKey_dictSet_ne st (dKey cfg r) _ k hkk]
        · by_cases hr : r.rtype = some "rewards"
          · cases hrw : r.rewards with
            | none => simp [stepRecord, hd, hr, hrw] at hstep
            | some entries =>
              have hre : runEntries cfg r.timestamp st entries = some mid := by
                simpa [stepRecord, hd, hr, hrw] using hstep
              have hnd : nodupB (entries.map Prod.fst) = true := by
                simpa [recWFB, hrw] using hwfr
              have hlem := runEntries_lookup cfg r.timestamp entries st mid k hre hnd
              cases hfind : lookupKey entries k with
              | none =>
                have hkeep := hlem.1 hfind
                simp [bucketStep, hd, hr, hrw, hfind, hkeep]
              | some v =>
                cases hsk : lookupKey st k with
                | none =>
                  have hnone := (hlem.2 v hfind).1 hsk
                  simp [bucketStep, hd, hr, hrw, hfind, hsk, hnone,
                    update_listeners_nil]
                | some l =>
                  obtain ⟨l', hup, hmk⟩ := (hlem.2 v hfind).2 l hsk
                  simp [bucketStep, hd, hr, hrw, hfind, hsk, hup, hmk]
          · by_cases he : r.rtype = some "event"
            · have hmb : mapBuckets cfg r.timestamp (eventValue cfg r) st
                  = some mid := by
                simpa [stepRecord, hd, hr, he] using hstep
              have hlem := mapBuckets_lookup cfg r.timestamp (eventValue cfg r)
                st mid k hmb
              cases hsk : lookupKey st k with
              | none => simp [bucketStep, hd, hr, he, hsk, hlem.1 hsk]
              | some l =>
                obtain ⟨l', hup, hmk⟩ := hlem.2 l hsk
                simp [bucketStep, hd, hr, he, hsk, hup, hmk]
            · simp [stepRecord, hd, hr, he] at hstep
      rw [runBucket, hb]
      exact ih mid st' hwf' hrun' k

/-! ### Declarative characterization of one bucket -/

theorem touchVal_not_decision (cfg : Config) (k : String) (r : Rec) (v : PyVal)
    (hv : touchVal cfg k r = some v) : ¬ r.rtype = some "decision" := by
  intro hd
  simp [touchVal, hd] at hv

theorem filterMap_someId (l : List Rec) : l.filterMap (fun L => some L) = l := by
  induction l with
  | nil => rfl
  | cons a t ih => simp [List.filterMap_cons, ih]

theorem filterMap_bind {α β γ : Type} (f : α → Option β) (g : β → Option γ)
    (l : List α) :
    (l.filterMap f).filterMap g = l.filterMap (fun a => (f a).bind g) := by
  induction l with
  | nil => rfl
  | cons a t ih =>
    cases hf : f a with
    | none => simp [List.filterMap_cons, hf, ih]
    | some b =>
      cases hg : g b with
      | none => simp [List.filterMap_cons, hf, hg, ih]
      | some c => simp [List.filterMap_cons, hf, hg, ih]

theorem bucketFinal_nil_records (cfg : Config) (k : String) (cur : List Rec) :
    bucketFinal cfg k cur [] = cur := by
  simp [bucketFinal, newSurvivors, expiresOn, accumL, inWindowVals, filterMap_someId]

theorem bucketFinal_nil_cur (cfg : Config) (k : String) (l : List Rec) :
    bucketFinal cfg k [] l = newSurvivors cfg k l := by
  simp [bucketFinal]

theorem newSurvivors_cons_skip (cfg : Config) (k : String) (r : Rec)
    (rest : List Rec) (hdf : isDecisionFor cfg k r = false) :
    newSurvivors cfg k (r :: rest) = newSurvivors cfg k rest := by
  rw [newSurvivors]
  simp [hdf]

theorem skipF (cfg : Config) (k : String) (r : Rec) (rest' : List Rec)
    (ht : touchVal cfg k r = none) (L : Rec) :
    (if expiresOn cfg k L (r :: rest') then none
      else some (accumL cfg k L (r :: rest')))
    = (if expiresOn cfg k L rest' then none
      else some (accumL cfg k L rest')) := by
  have h1 : expiresOn cfg k L (r :: rest') = expiresOn cfg k L rest' := by
    simp [expiresOn, List.any_cons, ht]
  have h2 : inWindowVals cfg k L (r :: rest') = inWindowVals cfg k L rest' := by
    simp [inWindowVals, List.filterMap_cons, ht]
  have h3 : accumL cfg k L (r :: rest') = accumL cfg k L rest' := by
    simp only [accumL, h2]
  rw [h1, h3]

theorem skip_step (cfg : Config) (k : String) (r : Rec) (rest' cur : List Rec)
    (hdf : isDecisionFor cfg k r = false) (ht : touchVal cfg k r = none) :
    bucketFinal cfg k cur (r :: rest') = bucketFinal cfg k cur rest' := by
  unfold bucketFinal
  rw [newSurvivors_cons_skip cfg k r rest' hdf]
  congr 1
  apply List.filterMap_congr
  intro L _
  exact skipF cfg k r rest' ht L

theorem decision_step (cfg : Config) (k : String) (r : Rec) (rest' cur : List Rec)
    (hd : r.rtype = some "decision") (hkk : dKey cfg r = k) :
    bucketFinal cfg k (cur ++ [r]) rest' = bucketFinal cfg k cur (r :: rest') := by
  have ht : touchVal cfg k r = none := by simp [touchVal, hd]
  have hdf : isDecisionFor cfg k r = true := by simp [isDecisionFor, hd, hkk]
  unfold bucketFinal
  rw [List.filterMap_append]
  have hsing : List.filterMap (fun L =>
      if expiresOn cfg k L rest' then none else some (accumL cfg k L rest')) [r]
      = (if isDecisionFor cfg k r && !expiresOn cfg k r rest' then
          [accumL cfg k r rest'] else []) := by
    cases hce : expiresOn cfg k r rest' with
    | true => simp [List.filterMap_cons, hce]
    | false => simp [List.filterMap_cons, hce, hdf]
  have hns : newSurvivors cfg k (r :: rest')
      = (if isDecisionFor cfg k r && !expiresOn cfg k r rest' then
          [accumL cfg k r rest'] else []) ++ newSurvivors cfg k rest' := by
    rw [newSurvivors]
  have hcongr : List.filterMap (fun L =>
      if expiresOn cfg k L (r :: rest') then none
      else some (accumL cfg k L (r :: rest'))) cur
      = List.filterMap (fun L =>
      if expiresOn cfg k L rest' then none else some (accumL cfg k L rest')) cur := by
    apply List.filterMap_congr
    intro L _
    exact skipF cfg k r rest' ht L
  rw [hsing, hns, hcongr, List.append_assoc]

theorem accumL_touch_cons (cfg : Config) (k : String) (r : Rec)
    (rest' : List Rec) (L : Rec) (v : PyVal) (q : ℚ)
    (hv : touchVal cfg k r = some v) (hq : pyFloat v = some q)
    (hin : expiredB cfg.window L.timestamp r.timestamp = false) :
    accumL cfg k (addReward q L) rest' = accumL cfg k L (r :: rest') := by
  have hle : r.timestamp ≤ L.timestamp + cfg.window := by
    simp [expiredB, decide_eq_false_iff_not] at hin
    omega
  have hcons : inWindowVals cfg k L (r :: rest')
      = v :: inWindowVals cfg k L rest' := by
    simp [inWindowVals, List.filterMap_cons, hv, hle]
  have hAdd : inWindowVals cfg k (addReward q L) rest'
      = inWindowVals cfg k L rest' := rfl
  cases hvs : inWindowVals cfg k L rest' with
  | nil =>
    simp only [accumL, hAdd, hvs, hcons, if_pos rfl]
    simp [addReward, defaultedSum, hq]
  | cons v0 vs0 =>
    simp only [accumL, hAdd, hvs, hcons]
    simp [addReward, defaultedSum, hq]
    ring

theorem touch_point (cfg : Config) (k : String) (r : Rec) (rest' : List Rec)
    (v : PyVal) (q : ℚ) (hv : touchVal cfg k r = some v)
    (hq : pyFloat v = some q) (L : Rec) :
    Option.bind
      (if expiredB cfg.window L.timestamp r.timestamp then none
        else some (addReward q L))
      (fun L' => if expiresOn cfg k L' rest' then none
        else some (accumL cfg k L' rest'))
    = (if expiresOn cfg k L (r :: rest') then none
        else some (accumL cfg k L (r :: rest'))) := by
  have hvs : (touchVal cfg k r).isSome = true := by rw [hv]; rfl
  cases hex : expiredB cfg.window L.timestamp r.timestamp with
  | true =>
    have hdec : decide (L.timestamp + cfg.window < r.timestamp) = true := hex
    have hce : expiresOn cfg k L (r :: rest') = true := by
      simp [expiresOn, List.any_cons, hvs, hdec]
    simp [hce]
  | false =>
    have hdec : decide (L.timestamp + cfg.window < r.timestamp) = false := hex
    have hhead : expiresOn cfg k L (r :: rest') = expiresOn cfg k L rest' := by
      simp [expiresOn, List.any_cons, hdec]
    have hAdd : expiresOn cfg k (addReward q L) rest' = expiresOn cfg k L rest' := rfl
    rw [hhead]
    cases hce : expiresOn cfg k L rest' with
    | true => simp [hex, hce, hAdd]
    | false =>
      simp [hex, hce, hAdd, accumL_touch_cons cfg k r rest' L v q hv hq hex]

theorem touch_step (cfg : Config) (k : String) (r : Rec) (rest' cur l₁ : List Rec)
    (v : PyVal) (hv : touchVal cfg k r = some v)
    (hu : update_listeners cfg.window cur r.timestamp v = some l₁) :
    bucketFinal cfg k l₁ rest' = bucketFinal cfg k cur (r :: rest') := by
  have hd : ¬ r.rtype = some "decision" := touchVal_not_decision cfg k r v hv
  have hdf : isDecisionFor cfg k r = false := by simp [isDecisionFor, hd]
  unfold bucketFinal
  rw [newSurvivors_cons_skip cfg k r rest' hdf]
  congr 1
  cases hq : pyFloat v with
  | some q =>
    have hl₁ : l₁ = cur.filterMap (fun L =>
        if expiredB cfg.window L.timestamp r.timestamp then none
        else some (addReward q L)) := by
      simp [update_listeners, hq] at hu
      exact hu.symm
    rw [hl₁, filterMap_bind]
    apply List.filterMap_congr
    intro L _
    exact touch_point cfg k r rest' v q hv hq L
  | none =>
    simp only [update_listeners, hq] at hu
    cases hany : cur.any (fun L => !expiredB cfg.window L.timestamp r.timestamp) with
    | true => rw [hany] at hu; simp at hu
    | false =>
      rw [hany] at hu
      simp at hu
      subst hu
      simp only [List.filterMap_nil]
      symm
      rw [List.filterMap_eq_nil_iff]
      intro L hL
      have hvs : (touchVal cfg k r).isSome = true := by rw [hv]; rfl
      have hexp : expiredB cfg.window L.timestamp r.timestamp = true := by
        have := List.any_eq_false.mp hany L hL
        simp at this
        exact this
      have hce : expiresOn cfg k L (r :: rest') = true := by
        simp [expiresOn, List.any_cons, hvs]
        left
        exact of_decide_eq_true hexp
      simp [hce]

theorem runBucket_eq (cfg : Config) (k : String) :
    ∀ (records : List Rec) (cur? res? : Option (List Rec)),
    runBucket cfg k cur? records = some res? →
    res? = (if cur?.isSome || records.any (fun r => isDecisionFor cfg k r) then
             some (bucketFinal cfg k (cur?.getD []) records)
           else none) := by
  intro records
  induction records with
  | nil =>
    intro cur? res? h
    simp [runBucket] at h
    subst h
    cases cur? with
    | some cur => simp [bucketFinal_nil_records]
    | none => simp
  | cons r rest ih =>
    intro cur? res? h
    cases hb : bucketStep cfg k cur? r with
    | none => simp [runBucket, hb] at h
    | some mid? =>
      have h' : runBucket cfg k mid? rest = some res? := by
        simpa [runBucket, hb] using h
      have hres := ih mid? res? h'
      by_cases hd : r.rtype = some "decision"
      · by_cases hkk : dKey cfg r = k
        · have hdf : isDecisionFor cfg k r = true := by simp [isDecisionFor, hd, hkk]
          have hmid : mid? = some (cur?.getD [] ++ [r]) := by
            have := hb
            simp [bucketStep, hd, hkk] at this
            exact this.symm
          subst hmid
          rw [hres]
          simp only [Option.isSome_some, Bool.true_or, if_pos rfl, Option.getD_some,
            List.any_cons, hdf, Bool.true_or]
          rw [decision_step cfg k r rest (cur?.getD []) hd hkk]
          simp
        · have hdf : isDecisionFor cfg k r = false := by simp [isDecisionFor, hkk]
          have ht : touchVal cfg k r = none := by simp [touchVal, hd]
          have hmid : mid? = cur? := by
            have := hb
            simp [bucketStep, hd, hkk] at this
            exact this.symm
          rw [hmid] at hres
          rw [hres, skip_step cfg k r rest (cur?.getD []) hdf ht]
          simp [List.any_cons, hdf]
      · by_cases hr : r.rtype = some "rewards"
        · cases hrw : r.rewards with
          | none => simp [bucketStep, hd, hr, hrw] at hb
          | some entries =>
            have hdf : isDecisionFor cfg k r = false := by simp [isDecisionFor, hd]
            cases hfind : lookupKey entries k with
            | none =>
              have ht : touchVal cfg k r = none := by
                simp [touchVal, hd, hr, hrw, hfind]
              have hmid : mid? = cur? := by
                have := hb
                simp [bucketStep, hd, hr, hrw, hfind] at this
                exact this.symm
              rw [hmid] at hres
              rw [hres, skip_step cfg k r rest (cur?.getD []) hdf ht]
              simp [List.any_cons, hdf]
            | some v =>
              have hv : touchVal cfg k r = some v := by
                simp [touchVal, hd, hr, hrw, hfind]
              cases cur? with
              | some cur =>
                cases hup : update_listeners cfg.window cur r.timestamp v with
                | none => simp [bucketStep, hd, hr, hrw, hfind, hup] at hb
                | some l₁ =>
                  have hmid : mid? = some l₁ := by
                    have := hb
                    simp [bucketStep, hd, hr, hrw, hfind, hup] at this
                    exact this.symm
                  subst hmid
                  rw [hres]
                  simp only [Option.isSome_some, Bool.true_or, if_pos rfl,
                    Option.getD_some]
                  rw [touch_step cfg k r rest cur l₁ v hv hup]
              | none =>
                have hmid : mid? = none := by
                  have := hb
                  simp [bucketStep, hd, hr, hrw, hfind, update_listeners_nil] at this
                  exact this.symm
                subst hmid
                rw [hres]
                simp only [Option.isSome_none, Bool.false_or, List.any_cons, hdf,
                  Option.getD_none, bucketFinal_nil_cur,
                  newSurvivors_cons_skip cfg k r rest hdf]
        · by_cases he : r.rtype = some "event"
          · have hdf : isDecisionFor cfg k r = false := by simp [isDecisionFor, hd]
            have hv : touchVal cfg k r = some (eventValue cfg r) := by
              simp [touchVal, hd, hr, he]
            cases cur? with
            | some cur =>
              cases hup : update_listeners cfg.window cur r.timestamp
                  (eventValue cfg r) with
              | none => simp [bucketStep, hd, hr, he, hup] at hb
              | some l₁ =>
                have hmid : mid? = some l₁ := by
                  have := hb
                  simp [bucketStep, hd, hr, he, hup] at this
                  exact this.symm
                subst hmid
                rw [hres]
                simp only [Option.isSome_some, Bool.true_or, if_pos rfl,
                  Option.getD_some]
                rw [touch_step cfg k r rest cur l₁ (eventValue cfg r) hv hup]
            | none =>
              have hmid : mid? = none := by
                have := hb
                simp [bucketStep, hd, hr, he] at this
                exact this.symm
              subst hmid
              rw [hres]
              simp only [Option.isSome_none, Bool.false_or, List.any_cons, hdf,
                Option.getD_none, bucketFinal_nil_cur,
                newSurvivors_cons_skip cfg k r rest hdf]
          · simp [bucketStep, hd, hr, he] at hb

/-! ### Assembled characterization of the engine output -/

theorem assign_buckets (cfg : Config) (records : List Rec) (out : WState)
    (hwf : recsWFB records = true)
    (h : assign_rewards_to_decisions cfg records = some out) (k : String) :
    lookupKey out k = (if records.any (fun r => isDecisionFor cfg k r) then
      some (newSurvivors cfg k records) else none) := by
  have hsA : runBucket cfg k none records = some (lookupKey out k) :=
    runRecords_bucket cfg records [] out hwf h k
  have := runBucket_eq cfg k records none (lookupKey out k) hsA
  simpa [bucketFinal_nil_cur] using this

theorem runBucket_append (cfg : Config) (k : String) :
    ∀ (l₁ l₂ : List Rec) (cur? res? : Option (List Rec)),
    runBucket cfg k cur? (l₁ ++ l₂) = some res? →
    ∃ mid?, runBucket cfg k cur? l₁ = some mid? ∧
      runBucket cfg k mid? l₂ = some res? := by
  intro l₁
  induction l₁ with
  | nil =>
    intro l₂ cur? res? h
    exact ⟨cur?, rfl, h⟩
  | cons r t ih =>
    intro l₂ cur? res? h
    cases hb : bucketStep cfg k cur? r with
    | none => simp [runBucket, hb] at h
    | some mid? =>
      have h' : runBucket cfg k mid? (t ++ l₂) = some res? := by
        simpa [runBucket, hb] using h
      obtain ⟨m2, h1, h2⟩ := ih l₂ mid? res? h'
      exact ⟨m2, by simp [runBucket, hb, h1], h2⟩

theorem inWindowVals_cons_touch (cfg : Config) (k : String) (r : Rec)
    (rest : List Rec) (L : Rec) (v : PyVal)
    (hv : touchVal cfg k r = some v)
    (hle : r.timestamp ≤ L.timestamp + cfg.window) :
    inWindowVals cfg k L (r :: rest) = v :: inWindowVals cfg k L rest := by
  simp [inWindowVals, List.filterMap_cons, hv, hle]

theorem runBucket_coerce (cfg : Config) (k : String) :
    ∀ (rest : List Rec) (cur : List Rec) (res? : Option (List Rec)),
    runBucket cfg k (some cur) rest = some res? →
    ∀ L ∈ cur, expiresOn cfg k L rest = false →
    (mapPyFloat (inWindowVals cfg k L rest)).isSome = true := by
  intro rest
  induction rest with
  | nil =>
    intro cur res? h L hL hex
    simp [inWindowVals, mapPyFloat]
  | cons r rest' ih =>
    intro cur res? h L hL hex
    cases hb : bucketStep cfg k (some cur) r with
    | none => simp [runBucket, hb] at h
    | some mid? =>
      have h' : runBucket cfg k mid? rest' = some res? := by
        simpa [runBucket, hb] using h
      cases htv : touchVal cfg k r with
      | none =>
        have hexr : expiresOn cfg k L rest' = false := by
          simpa [expiresOn, List.any_cons, htv] using hex
        have hvals : inWindowVals cfg k L (r :: rest')
            = inWindowVals cfg k L rest' := by
          simp [inWindowVals, List.filterMap_cons, htv]
        rw [hvals]
        by_cases hd : r.rtype = some "decision"
        · by_cases hkk : dKey cfg r = k
          · have hmid : mid? = some (cur ++ [r]) := by
              have := hb
              simp [bucketStep, hd, hkk] at this
              exact this.symm
            subst hmid
            exact ih (cur ++ [r]) res? h' L (List.mem_append_left _ hL) hexr
          · have hmid : mid? = some cur := by
              have := hb
              simp [bucketStep, hd, hkk] at this
              exact this.symm
            subst hmid
            exact ih cur res? h' L hL hexr
        · by_cases hr : r.rtype = some "rewards"
          · cases hrw : r.rewards with
            | none => simp [bucketStep, hd, hr, hrw] at hb
            | some entries =>
              have hfind : lookupKey entries k = none := by
                simpa [touchVal, hd, hr, hrw] using htv
              have hmid : mid? = some cur := by
                have := hb
                simp [bucketStep, hd, hr, hrw, hfind] at this
                exact this.symm
              subst hmid
              exact ih cur res? h' L hL hexr
          · by_cases he : r.rtype = some "event"
            · simp [touchVal, hd, hr, he] at htv
            · simp [bucketStep, hd, hr, he] at hb
      | some v =>
        have hnle : decide (L.timestamp + cfg.window < r.timestamp) = false := by
          have := hex
          simp [expiresOn, List.any_cons, htv] at this
          simp [this.1]
        have hexr : expiresOn cfg k L rest' = false := by
          have := hex
          simp [expiresOn, List.any_cons, htv] at this
          simp [expiresOn]
          exact this.2
        have hle : r.timestamp ≤ L.timestamp + cfg.window := by
          have := of_decide_eq_false hnle
          omega
        have hexpL : expiredB cfg.window L.timestamp r.timestamp = false := hnle
        -- determine the update that was applied to this bucket
        have hup : ∃ l₁, update_listeners cfg.window cur r.timestamp v = some l₁ ∧
            mid? = some l₁ := by
          by_cases hd : r.rtype = some "decision"
          · exact absurd hd (touchVal_not_decision cfg k r v htv)
          · by_cases hr : r.rtype = some "rewards"
            · cases hrw : r.rewards with
              | none => simp [bucketStep, hd, hr, hrw] at hb
              | some entries =>
                have hfind : lookupKey entries k = some v := by
                  simpa [touchVal, hd, hr, hrw] using htv
                cases hu : update_listeners cfg.window cur r.timestamp v with
                | none => simp [bucketStep, hd, hr, hrw, hfind, hu] at hb
                | some l₁ =>
                  refine ⟨l₁, rfl, ?_⟩
                  have := hb
                  simp [bucketStep, hd, hr, hrw, hfind, hu] at this
                  exact this.symm
            · by_cases he : r.rtype = some "event"
              · have hveq : eventValue cfg r = v := by
                  simpa [touchVal, hd, hr, he] using htv
                cases hu : update_listeners cfg.window cur r.timestamp v with
                | none =>
                  rw [← hveq] at hu
                  simp [bucketStep, hd, hr, he, hu] at hb
                | some l₁ =>
                  refine ⟨l₁, rfl, ?_⟩
                  have := hb
                  rw [← hveq] at hu
                  simp [bucketStep, hd, hr, he, hu] at this
                  rw [hveq] at hu
                  exact this.symm
              · simp [bucketStep, hd, hr, he] at hb
        obtain ⟨l₁, hu, hmid⟩ := hup
        subst hmid
        cases hq : pyFloat v with
        | none =>
          rw [update_listeners, hq] at hu
          have hanyt : cur.any
              (fun L => !expiredB cfg.window L.timestamp r.timestamp) = true := by
            apply List.any_eq_true.mpr
            exact ⟨L, hL, by simp [hexpL]⟩
          rw [hanyt] at hu
          simp at hu
        | some q =>
          have hl₁ : l₁ = cur.filterMap (fun L =>
              if expiredB cfg.window L.timestamp r.timestamp then none
              else some (addReward q L)) := by
            rw [update_listeners, hq] at hu
            simpa using hu.symm
          have hmem : addReward q L ∈ l₁ := by
            rw [hl₁]
            apply List.mem_filterMap.mpr
            exact ⟨L, hL, by simp [hexpL]⟩
          have hexadd : expiresOn cfg k (addReward q L) rest' = false := hexr
          have htail := ih l₁ res? h' (addReward q L) hmem hexadd
          have hvals : inWindowVals cfg k (addReward q L) rest'
              = inWindowVals cfg k L rest' := rfl
          rw [hvals] at htail
          rw [inWindowVals_cons_touch cfg k r rest' L v htv hle]
          obtain ⟨qs, hqs⟩ := Option.isSome_iff_exists.mp htail
          simp [mapPyFloat, hq, hqs]

theorem mapPyFloat_eq : ∀ (vs : List PyVal) (qs : List ℚ),
    mapPyFloat vs = some qs → qs = vs.map (fun v => (pyFloat v).getD 0) := by
  intro vs
  induction vs with
  | nil =>
    intro qs h
    simp [mapPyFloat] at h
    simp [h.symm]
  | cons v t ih =>
    intro qs h
    cases hq : pyFloat v with
    | none => simp [mapPyFloat, hq] at h
    | some q =>
      cases ht : mapPyFloat t with
      | none => simp [mapPyFloat, hq, ht] at h
      | some qs' =>
        simp [mapPyFloat, hq, ht] at h
        simp [h.symm, ih qs' ht, hq]

theorem mem_newSurvivors (cfg : Config) (k : String) :
    ∀ (records : List Rec) (D' : Rec),
    D' ∈ newSurvivors cfg k records →
    ∃ pre D rest, records = pre ++ D :: rest ∧ isDecisionFor cfg k D = true ∧
      expiresOn cfg k D rest = false ∧ D' = accumL cfg k D rest := by
  intro records
  induction records with
  | nil => intro D' h; simp [newSurvivors] at h
  | cons r rest ih =>
    intro D' h
    rw [newSurvivors] at h
    rcases List.mem_append.mp h with hl | hr
    · by_cases hcond : isDecisionFor cfg k r && !expiresOn cfg k r rest
      · rw [if_pos hcond] at hl
        simp at hl
        subst hl
        simp only [Bool.and_eq_true, Bool.not_eq_true'] at hcond
        exact ⟨[], r, rest, rfl, hcond.1, hcond.2, rfl⟩
      · rw [if_neg hcond] at hl
        simp at hl
    · obtain ⟨pre, D, rest', heq, hD, hex, hacc⟩ := ih D' hr
      exact ⟨r :: pre, D, rest', by rw [heq]; rfl, hD, hex, hacc⟩

theorem accumL_mem_newSurvivors (cfg : Config) (k : String) :
    ∀ (pre : List Rec) (D : Rec) (rest : List Rec),
    isDecisionFor cfg k D = true → expiresOn cfg k D rest = false →
    accumL cfg k D rest ∈ newSurvivors cfg k (pre ++ D :: rest) := by
  intro pre
  induction pre with
  | nil =>
    intro D rest hD hex
    rw [List.nil_append, newSurvivors]
    apply List.mem_append_left
    simp [hD, hex]
  | cons p pre' ih =>
    intro D rest hD hex
    rw [List.cons_append, newSurvivors]
    apply List.mem_append_right
    exact ih D rest hD hex

/-! ### Loader lemmas -/

theorem loadLoop_spec :
    ∀ (lines : List Line) (msgIds : List String) (dups : Nat) (err : Bool)
      (acc : List RawRec) (out : List RawRec × List String × Nat × Bool),
    loadLoop msgIds dups err acc lines = some out →
    out.1 = acc ++ specKept msgIds lines ∧
    out.2.2.2 = (err || lines.any lineErr) := by
  intro lines
  induction lines with
  | nil =>
    intro msgIds dups err acc out h
    simp [loadLoop] at h
    subst h
    simp [specKept]
  | cons line rest ih =>
    intro msgIds dups err acc out h
    cases line with
    | badJson =>
      have h' : loadLoop msgIds dups true acc rest = some out := h
      obtain ⟨h1, h2⟩ := ih msgIds dups true acc out h'
      refine ⟨by rw [h1]; rfl, ?_⟩
      rw [h2]
      simp [lineErr, List.any_cons]
    | jrec r =>
      cases hts : r.ts with
      | missing => simp [loadLoop, hts] at h
      | unparseable =>
        have h' : loadLoop msgIds dups true acc rest = some out := by
          simpa [loadLoop, hts] using h
        obtain ⟨h1, h2⟩ := ih msgIds dups true acc out h'
        refine ⟨by rw [h1, specKept, hts], ?_⟩
        rw [h2]
        simp [lineErr, List.any_cons, hts]
      | parsed t =>
        cases hm : r.msgId with
        | none => simp [loadLoop, hts, hm] at h
        | some m =>
          have hne : lineErr (Line.jrec r) = false := by
            simp [lineErr, hts]
          by_cases hmem : m ∈ msgIds
          · have h' : loadLoop msgIds (dups + 1) err acc rest = some out := by
              simpa [loadLoop, hts, hm, hmem] using h
            obtain ⟨h1, h2⟩ := ih msgIds (dups + 1) err acc out h'
            refine ⟨by rw [h1]; simp [specKept, hts, hm, hmem], ?_⟩
            rw [h2]
            simp [List.any_cons, hne]
          · have h' : loadLoop (m :: msgIds) dups err (acc ++ [r]) rest
                = some out := by
              simpa [loadLoop, hts, hm, hmem] using h
            obtain ⟨h1, h2⟩ := ih (m :: msgIds) dups err (acc ++ [r]) out h'
            constructor
            · rw [h1]
              simp [specKept, hts, hm, hmem]
            · rw [h2]
              simp [List.any_cons, hne]

theorem loadLoop_missing_none :
    ∀ (lines : List Line) (msgIds : List String) (dups : Nat) (err : Bool)
      (acc : List RawRec),
    (∀ r, Line.jrec r ∈ lines → (r.msgId).isSome = true) →
    (∃ r, Line.jrec r ∈ lines ∧ r.ts = TsField.missing) →
    loadLoop msgIds dups err acc lines = none := by
  intro lines
  induction lines with
  | nil =>
    intro msgIds dups err acc hmsg hex
    obtain ⟨r, hr, _⟩ := hex
    simp at hr
  | cons line rest ih =>
    intro msgIds dups err acc hmsg hex
    cases line with
    | badJson =>
      rw [loadLoop]
      apply ih msgIds dups true acc
      · intro r hr; exact hmsg r (List.mem_cons_of_mem _ hr)
      · obtain ⟨r, hr, hts⟩ := hex
        rcases List.mem_cons.mp hr with heq | hmem
        · cases heq
        · exact ⟨r, hmem, hts⟩
    | jrec r0 =>
      cases hts0 : r0.ts with
      | missing => simp [loadLoop, hts0]
      | unparseable =>
        rw [loadLoop, hts0]
        apply ih msgIds dups true acc
        · intro r hr; exact hmsg r (List.mem_cons_of_mem _ hr)
        · obtain ⟨r, hr, hts⟩ := hex
          rcases List.mem_cons.mp hr with heq | hmem
          · injection heq with heq'
            rw [heq', hts0] at hts
            cases hts
          · exact ⟨r, hmem, hts⟩
      | parsed t =>
        have hms : (r0.msgId).isSome = true :=
          hmsg r0 (List.mem_cons_self _ _)
        cases hm : r0.msgId with
        | none => rw [hm] at hms; simp at hms
        | some m =>
          have hexr : ∃ r, Line.jrec r ∈ rest ∧ r.ts = TsField.missing := by
            obtain ⟨r, hr, hts⟩ := hex
            rcases List.mem_cons.mp hr with heq | hmem
            · injection heq with heq'
              rw [heq', hts0] at hts
              cases hts
            · exact ⟨r, hmem, hts⟩
          have hmsg' : ∀ r, Line.jrec r ∈ rest → (r.msgId).isSome = true :=
            fun r hr => hmsg r (List.mem_cons_of_mem _ hr)
          by_cases hmem : m ∈ msgIds
          · rw [loadLoop, hts0, hm]
            simp only [if_pos hmem]
            exact ih msgIds (dups + 1) err acc hmsg' hexr
          · rw [loadLoop, hts0, hm]
            simp only [if_neg hmem]
            exact ih (m :: msgIds) dups err (acc ++ [r0]) hmsg' hexr

theorem load_records_ok_spec (lines : List Line) (ids : List String)
    (st : Stats) (res : LoadResult)
    (h : load_records (.ok lines) ids st = some res) :
    res.records = specKept ids lines ∧
    res.quarantined = lines.any lineErr ∧
    res.stats.unrecoverable
      = st.unrecoverable + (if lines.any lineErr then 1 else 0) := by
  cases hl : loadLoop ids 0 false [] lines with
  | none => simp [load_records, hl] at h
  | some out =>
    obtain ⟨h1, h2⟩ := loadLoop_spec lines ids 0 false [] out hl
    simp [load_records, hl] at h
    subst h
    simp at h1
    rw [Bool.false_or] at h2
    exact ⟨h1, h2, by rw [h2]⟩

/-! ### Claim theorems -/

/-- C9 (confirmed): for every directory `d` and every node count `N > 0`,
exactly one node id in `[0, N)` owns `d` under
`MurmurHash3_x86_32(d.name[:2], seed 0, unsigned) mod N == NODE_ID`, and
`identify_dirs_to_process` is a pure function of its arguments, so
repeated runs with equal `N` assign `d` to the same node. -/
theorem identify_dirs_owner_unique (d : String) (dirs : List String) (N : Nat)
    (hN : 0 < N) (hd : d ∈ dirs) :
    ∃! i : Nat, i < N ∧ d ∈ identify_dirs_to_process dirs i N := by
  refine ⟨dirShardHash d % N, ⟨Nat.mod_lt _ hN, ?_⟩, ?_⟩
  · simp [identify_dirs_to_process, List.mem_filter, hd]
  · rintro i ⟨hi, hmem⟩
    simp [identify_dirs_to_process, List.mem_filter] at hmem
    exact hmem.2.symm

/-- Witness for C9 at the concrete directory "aa" with three nodes. -/
theorem identify_dirs_owner_unique_witness :
    0 < 3 ∧ "aa" ∈ ["aa"] ∧
    (∃! i : Nat, i < 3 ∧ "aa" ∈ identify_dirs_to_process ["aa"] i 3) :=
  ⟨by decide, by simp,
   identify_dirs_owner_unique "aa" ["aa"] 3 (by decide) (by simp)⟩

/-- C10 (confirmed): the keys of the mapping returned by
`assign_rewards_to_decisions` are exactly the reward keys (default key
when absent) of the decision-typed input records, and a rewards record
all of whose keys match no existing bucket leaves the state unchanged
(no bucket is added). -/
theorem assign_bucket_keys_exact (cfg : Config) (records : List Rec)
    (out : WState) (hwf : recsWFB records = true)
    (h : assign_rewards_to_decisions cfg records = some out) :
    (∀ k, (lookupKey out k).isSome = true ↔
      ∃ r ∈ records, r.rtype = some "decision" ∧ dKey cfg r = k) ∧
    (∀ st r entries, r.rtype = some "rewards" → r.rewards = some entries →
      (∀ e ∈ entries, lookupKey st e.1 = none) →
      stepRecord cfg st r = some st) := by
  constructor
  · intro k
    rw [assign_buckets cfg records out hwf h k]
    constructor
    · intro hs
      by_cases hany : records.any (fun r => isDecisionFor cfg k r) = true
      · obtain ⟨r, hmem, hbool⟩ := List.any_eq_true.mp hany
        simp only [isDecisionFor, Bool.and_eq_true, decide_eq_true_eq] at hbool
        exact ⟨r, hmem, hbool.1, hbool.2⟩
      · rw [if_neg hany] at hs
        simp at hs
    · rintro ⟨r, hmem, h1, h2⟩
      have hdec : isDecisionFor cfg k r = true := by
        simp [isDecisionFor, h1, h2]
      have hany := List.any_eq_true.mpr ⟨r, hmem, hdec⟩
      rw [if_pos hany]
      rfl
  · intro st r entries hty hrw hnone
    have hne : ¬ r.rtype = some "decision" := by rw [hty]; simp
    simp only [stepRecord, hne, if_neg, hty, if_pos, hrw]
    simp
    exact runEntries_allNone cfg r.timestamp entries st hnone

/-- Witness for C10: one decision with key "k" produces exactly the
bucket "k". -/
theorem assign_bucket_keys_exact_witness :
    recsWFB [exDecision "k" 0] = true ∧
    (lookupKey [("k", [exDecision "k" 0])] "k").isSome = true :=
  ⟨by decide,
   ((assign_bucket_keys_exact cfgEx [exDecision "k" 0]
      [("k", [exDecision "k" 0])] (by decide) (by decide)).1 "k").mpr
     ⟨exDecision "k" 0, by simp, rfl, rfl⟩⟩

/-- Counterexample to C1 as frozen: a rewards record carrying the very
timestamp of the decision (`t = t_D`, outside the claimed window
`(t_D, t_D + W]`) is nevertheless added: the emitted reward is 3/2
while the claimed sum over `(t_D, t_D + W]` is 0. -/
theorem claim_c1_counterexample :
    assign_rewards_to_decisions cfgEx
        [exDecision "k" 0, exRewards 0 [("k", PyVal.pnum (3/2))]]
      = some [("k", [⟨some "decision", some "k", none, none, 0,
          some (DEFAULT_REWARD_VALUE + 3/2), "d"⟩])] ∧
    claimReward cfgEx "k" (exDecision "k" 0)
        [exRewards 0 [("k", PyVal.pnum (3/2))]] = 0 ∧
    DEFAULT_REWARD_VALUE + (3/2 : ℚ) ≠ 0 := by
  refine ⟨rfl, rfl, by norm_num [DEFAULT_REWARD_VALUE]⟩

/-- Counterexample to C2 as frozen: a decision whose window expires
before the input is exhausted is deleted from the returned bucket; the
input holds one decision record but the output bucket is empty. -/
theorem claim_c2_counterexample :
    assign_rewards_to_decisions cfgEx
        [exDecision "k" 0, exRewards 61 [("k", PyVal.pnum 1)]]
      = some [("k", [])] ∧
    (List.filter (fun r => r.rtype = some "decision")
        [exDecision "k" 0, exRewards 61 [("k", PyVal.pnum 1)]]).length = 1 := by
  refine ⟨by decide, by decide⟩

/-- Counterexample to C3 as frozen: a rewards record at exactly the
decision's timestamp, later in the sorted list, IS added to the
decision's reward (the emitted reward is 2, not left untouched). -/
theorem claim_c3_counterexample :
    assign_rewards_to_decisions cfgEx
        [exDecision "k" 0, exRewards 0 [("k", PyVal.pnum 2)]]
      = some [("k", [⟨some "decision", some "k", none, none, 0,
          some (DEFAULT_REWARD_VALUE + 2), "d"⟩])] ∧
    (exRewards 0 [("k", PyVal.pnum 2)]).timestamp
      = (exDecision "k" 0).timestamp ∧
    DEFAULT_REWARD_VALUE + (2 : ℚ) ≠ DEFAULT_REWARD_VALUE := by
  refine ⟨rfl, rfl, by norm_num [DEFAULT_REWARD_VALUE]⟩

/-- Counterexample to C4 as frozen: a decision with no matching
contribution is emitted WITHOUT a numeric reward field (its `reward`
stays absent), not with `reward = 0`. -/
theorem claim_c4_counterexample :
    assign_rewards_to_decisions cfgEx [exDecision "k" 0]
      = some [("k", [exDecision "k" 0])] ∧
    (exDecision "k" 0).reward = none := by
  refine ⟨by decide, by decide⟩

/-- Counterexample to C5 as frozen: a file with one bad JSON line and no
gzip corruption keeps its other two records, yet IS quarantined (copied
to the unrecoverable directory with the counter incremented). -/
theorem claim_c5_counterexample :
    load_records (GFile.ok exLinesC5) [] ⟨0, 0, 0⟩
      = some ⟨[⟨some "m1", TsField.parsed 1, "b1"⟩,
               ⟨some "m2", TsField.parsed 2, "b2"⟩],
              ["m2", "m1"], ⟨0, 2, 1⟩, true⟩ := by
  decide

/-- Counterexample to C6 as frozen: a record with a missing timestamp
aborts the whole file load (an uncaught `KeyError`), instead of only
that record being rejected with loading continuing. -/
theorem claim_c6_counterexample :
    load_records (GFile.ok [Line.jrec ⟨some "m3", TsField.missing, "b3"⟩,
        Line.jrec ⟨some "m1", TsField.parsed 1, "b1"⟩]) [] ⟨0, 0, 0⟩
      = none := by
  decide

/-- Counterexample to C7 as frozen: a decision record whose `model` is
present but empty and whose `count` is a non-integer string passes
`validate_record` and is kept by `filter_valid_records`. -/
theorem claim_c7_counterexample :
    validate_record (fun _ => "H") vEx none "H" = true ∧
    filter_valid_records (fun _ => "H") "H" [vEx] = [vEx] := by
  refine ⟨by decide, by decide⟩

/-- Counterexample to C8 as frozen: an event whose `properties.value` is
present but non-numeric does not contribute `DEFAULT_EVENT_VALUE`;
`float()` raises and the whole run aborts. -/
theorem claim_c8_counterexample :
    assign_rewards_to_decisions cfgEx
        [exDecision "k" 0, exEvent 1 (some [("value", PyVal.pstr "abc")])]
      = none := by
  decide

/-- C1 (amended): for a sorted, well-formed record list on which
`assign_rewards_to_decisions` succeeds, every emitted decision arises
from an input decision `D`, and its reward field equals the sum of all
matching contributions occurring after `D` in the list with
`t ≤ t_D + W` — the window is closed on the left (`t = t_D` counts),
not open as the frozen claim states — each contribution coerced by
`float`; when no contribution matched, the reward field is left as it
was on the input record (absent), not 0. -/
theorem assign_reward_is_window_sum (cfg : Config) (records : List Rec)
    (out : WState) (k : String) (l : List Rec) (D' : Rec)
    (hwf : recsWFB records = true)
    (hsorted : sortedByTimestamp records = true)
    (h : assign_rewards_to_decisions cfg records = some out)
    (hk : lookupKey out k = some l) (hD' : D' ∈ l) :
    ∃ pre D rest, records = pre ++ D :: rest ∧
      isDecisionFor cfg k D = true ∧ expiresOn cfg k D rest = false ∧
      ∃ qs, mapPyFloat (inWindowVals cfg k D rest) = some qs ∧
        D'.reward = (if qs = [] then D.reward
          else some (D.reward.getD DEFAULT_REWARD_VALUE + qs.sum)) := by
  have hbk := assign_buckets cfg records out hwf h k
  rw [hk] at hbk
  by_cases hany : records.any (fun r => isDecisionFor cfg k r) = true
  · rw [if_pos hany] at hbk
    have hl : l = newSurvivors cfg k records := Option.some.inj hbk
    obtain ⟨pre, D, rest, heq, hDfor, hex, hacc⟩ :=
      mem_newSurvivors cfg k records D' (hl ▸ hD')
    have hd : D.rtype = some "decision" := by
      have := hDfor
      simp only [isDecisionFor, Bool.and_eq_true, decide_eq_true_eq] at this
      exact this.1
    have hkk : dKey cfg D = k := by
      have := hDfor
      simp only [isDecisionFor, Bool.and_eq_true, decide_eq_true_eq] at this
      exact this.2
    have hsA : runBucket cfg k none records = some (lookupKey out k) :=
      runRecords_bucket cfg records [] out hwf h k
    rw [heq] at hsA
    obtain ⟨mid?, h1, h2⟩ :=
      runBucket_append cfg k pre (D :: rest) none (lookupKey out k) hsA
    have hb : bucketStep cfg k mid? D = some (some (mid?.getD [] ++ [D])) := by
      simp [bucketStep, hd, hkk]
    have h3 : runBucket cfg k (some (mid?.getD [] ++ [D])) rest
        = some (lookupKey out k) := by
      rw [runBucket, hb] at h2
      exact h2
    have hco := runBucket_coerce cfg k rest (mid?.getD [] ++ [D])
      (lookupKey out k) h3 D (by simp) hex
    obtain ⟨qs, hqs⟩ := Option.isSome_iff_exists.mp hco
    refine ⟨pre, D, rest, heq, hDfor, hex, qs, hqs, ?_⟩
    have hmapeq := mapPyFloat_eq (inWindowVals cfg k D rest) qs hqs
    rw [hacc]
    by_cases hvals : inWindowVals cfg k D rest = []
    · have hqs0 : qs = [] := by rw [hmapeq, hvals]; rfl
      simp [accumL, hvals, hqs0]
    · have hqsne : ¬ qs = [] := by
        rw [hmapeq]
        intro hc
        exact hvals (List.map_eq_nil_iff.mp hc)
      have hsum : defaultedSum (inWindowVals cfg k D rest) = qs.sum := by
        rw [defaultedSum, hmapeq]
      simp [accumL, hvals, hqsne, hsum]
  · rw [if_neg hany] at hbk
    exact absurd hbk (by simp)

/-- Witness for C1 (amended) at a reward record 30 s after the
decision. -/
theorem assign_reward_is_window_sum_witness :
    recsWFB [exDecision "k" 0, exRewards 30 [("k", PyVal.pnum (3/2))]] = true ∧
    sortedByTimestamp [exDecision "k" 0,
      exRewards 30 [("k", PyVal.pnum (3/2))]] = true ∧
    (∃ pre D rest,
      [exDecision "k" 0, exRewards 30 [("k", PyVal.pnum (3/2))]]
        = pre ++ D :: rest ∧
      isDecisionFor cfgEx "k" D = true ∧ expiresOn cfgEx "k" D rest = false ∧
      ∃ qs, mapPyFloat (inWindowVals cfgEx "k" D rest) = some qs ∧
        (⟨some "decision", some "k", none, none, 0,
          some (DEFAULT_REWARD_VALUE + 3/2), "d"⟩ : Rec).reward
          = (if qs = [] then D.reward
            else some (D.reward.getD DEFAULT_REWARD_VALUE + qs.sum))) :=
  ⟨by decide, by decide,
   assign_reward_is_window_sum cfgEx
     [exDecision "k" 0, exRewards 30 [("k", PyVal.pnum (3/2))]]
     [("k", [⟨some "decision", some "k", none, none, 0,
       some (DEFAULT_REWARD_VALUE + 3/2), "d"⟩])]
     "k" [⟨some "decision", some "k", none, none, 0,
       some (DEFAULT_REWARD_VALUE + 3/2), "d"⟩]
     (⟨some "decision", some "k", none, none, 0,
       some (DEFAULT_REWARD_VALUE + 3/2), "d"⟩ : Rec)
     (by decide) (by decide) rfl rfl (by simp)⟩

/-- C2 (amended): for a sorted, well-formed record list on which
`assign_rewards_to_decisions` succeeds, every bucket of the returned
mapping holds exactly the not-expired decisions of its key, once each,
in arrival order, with their accumulated rewards; a decision whose
window expires before the input is exhausted is DELETED from the
returned bucket (the stored listener lists alias the output), contrary
to the frozen claim. -/
theorem assign_emits_exactly_unexpired (cfg : Config) (records : List Rec)
    (out : WState)
    (hwf : recsWFB records = true)
    (hsorted : sortedByTimestamp records = true)
    (h : assign_rewards_to_decisions cfg records = some out) :
    ∀ k l, lookupKey out k = some l → l = newSurvivors cfg k records := by
  intro k l hk
  have hbk := assign_buckets cfg records out hwf h k
  rw [hk] at hbk
  by_cases hany : records.any (fun r => isDecisionFor cfg k r) = true
  · rw [if_pos hany] at hbk
    exact Option.some.inj hbk
  · rw [if_neg hany] at hbk
    exact absurd hbk (by simp)

/-- Witness for C2 (amended): the expired decision's bucket comes back
empty, matching `newSurvivors`. -/
theorem assign_emits_exactly_unexpired_witness :
    recsWFB [exDecision "k" 0, exRewards 61 [("k", PyVal.pnum 1)]] = true ∧
    ([] : List Rec) = newSurvivors cfgEx "k"
      [exDecision "k" 0, exRewards 61 [("k", PyVal.pnum 1)]] :=
  ⟨by decide,
   assign_emits_exactly_unexpired cfgEx
     [exDecision "k" 0, exRewards 61 [("k", PyVal.pnum 1)]]
     [("k", [])] (by decide) (by decide) rfl "k" [] rfl⟩

/-- C3 (amended): the window of `update_listeners` is CLOSED on the
left: for a sorted, well-formed list on which the engine succeeds, a
rewards or event contribution carrying the exact same timestamp as a
live decision, occurring after it in the list, IS included among the
decision's in-window contributions, and the decision is emitted with
the accumulated (non-default) reward. -/
theorem assign_same_instant_contribution_counts (cfg : Config)
    (records : List Rec) (out : WState) (k : String) (pre : List Rec)
    (D : Rec) (rest : List Rec) (r : Rec) (v : PyVal)
    (hwf : recsWFB records = true)
    (hsorted : sortedByTimestamp records = true)
    (h : assign_rewards_to_decisions cfg records = some out)
    (hsplit : records = pre ++ D :: rest)
    (hD : isDecisionFor cfg k D = true)
    (hex : expiresOn cfg k D rest = false)
    (hW : 0 ≤ cfg.window)
    (hr : r ∈ rest) (hts : r.timestamp = D.timestamp)
    (hv : touchVal cfg k r = some v) :
    v ∈ inWindowVals cfg k D rest ∧
    ∃ l, lookupKey out k = some l ∧ accumL cfg k D rest ∈ l ∧
      (accumL cfg k D rest).reward
        = some (D.reward.getD DEFAULT_REWARD_VALUE
            + defaultedSum (inWindowVals cfg k D rest)) := by
  have hle : r.timestamp ≤ D.timestamp + cfg.window := by
    rw [hts]; omega
  have hvmem : v ∈ inWindowVals cfg k D rest := by
    apply List.mem_filterMap.mpr
    exact ⟨r, hr, by simp [hv, hle]⟩
  have hne : ¬ inWindowVals cfg k D rest = [] := by
    intro hc
    rw [hc] at hvmem
    simp at hvmem
  have hmemD : D ∈ records := by
    rw [hsplit]
    exact List.mem_append_right _ (List.mem_cons_self _ _)
  have hany : records.any (fun r => isDecisionFor cfg k r) = true :=
    List.any_eq_true.mpr ⟨D, hmemD, hD⟩
  have hbk := assign_buckets cfg records out hwf h k
  rw [if_pos hany] at hbk
  refine ⟨hvmem, newSurvivors cfg k records, hbk, ?_, ?_⟩
  · have := accumL_mem_newSurvivors cfg k pre D rest hD hex
    rwa [← hsplit] at this
  · simp [accumL, hne]

/-- Witness for C3 (amended) at a rewards record sharing the decision's
timestamp. -/
theorem assign_same_instant_contribution_counts_witness :
    recsWFB [exDecision "k" 0, exRewards 0 [("k", PyVal.pnum 2)]] = true ∧
    (PyVal.pnum 2 ∈ inWindowVals cfgEx "k" (exDecision "k" 0)
      [exRewards 0 [("k", PyVal.pnum 2)]] ∧
    ∃ l, lookupKey [("k", [⟨some "decision", some "k", none, none, 0,
        some (DEFAULT_REWARD_VALUE + 2), "d"⟩])] "k" = some l ∧
      accumL cfgEx "k" (exDecision "k" 0)
        [exRewards 0 [("k", PyVal.pnum 2)]] ∈ l ∧
      (accumL cfgEx "k" (exDecision "k" 0)
        [exRewards 0 [("k", PyVal.pnum 2)]]).reward
        = some ((exDecision "k" 0).reward.getD DEFAULT_REWARD_VALUE
            + defaultedSum (inWindowVals cfgEx "k" (exDecision "k" 0)
                [exRewards 0 [("k", PyVal.pnum 2)]]))) :=
  ⟨by decide,
   assign_same_instant_contribution_counts cfgEx
     [exDecision "k" 0, exRewards 0 [("k", PyVal.pnum 2)]]
     [("k", [⟨some "decision", some "k", none, none, 0,
       some (DEFAULT_REWARD_VALUE + 2), "d"⟩])]
     "k" [] (exDecision "k" 0) [exRewards 0 [("k", PyVal.pnum 2)]]
     (exRewards 0 [("k", PyVal.pnum 2)]) (PyVal.pnum 2)
     (by decide) (by decide) rfl rfl (by decide) (by decide) (by decide)
     (by simp) rfl rfl⟩

/-- C4 (amended): for a sorted, well-formed list on which the engine
succeeds, a decision that receives no matching in-window contribution
and is never expired is emitted UNCHANGED: in particular its reward
field stays absent (`none`), not the numeric 0 the frozen claim
states. -/
theorem assign_no_contribution_reward_absent (cfg : Config)
    (records : List Rec) (out : WState) (k : String) (pre : List Rec)
    (D : Rec) (rest : List Rec)
    (hwf : recsWFB records = true)
    (hsorted : sortedByTimestamp records = true)
    (h : assign_rewards_to_decisions cfg records = some out)
    (hsplit : records = pre ++ D :: rest)
    (hD : isDecisionFor cfg k D = true)
    (hex : expiresOn cfg k D rest = false)
    (hvals : inWindowVals cfg k D rest = [])
    (hrw : D.reward = none) :
    ∃ l, lookupKey out k = some l ∧ D ∈ l ∧ D.reward = none := by
  have hmemD : D ∈ records := by
    rw [hsplit]
    exact List.mem_append_right _ (List.mem_cons_self _ _)
  have hany : records.any (fun r => isDecisionFor cfg k r) = true :=
    List.any_eq_true.mpr ⟨D, hmemD, hD⟩
  have hbk := assign_buckets cfg records out hwf h k
  rw [if_pos hany] at hbk
  refine ⟨newSurvivors cfg k records, hbk, ?_, hrw⟩
  have hmem := accumL_mem_newSurvivors cfg k pre D rest hD hex
  rw [← hsplit] at hmem
  have hacc : accumL cfg k D rest = D := by
    simp [accumL, hvals]
  rwa [hacc] at hmem

/-- Witness for C4 (amended): a lone decision is emitted with its
reward field absent. -/
theorem assign_no_contribution_reward_absent_witness :
    recsWFB [exDecision "k" 0] = true ∧
    (∃ l, lookupKey [("k", [exDecision "k" 0])] "k" = some l ∧
      exDecision "k" 0 ∈ l ∧ (exDecision "k" 0).reward = none) :=
  ⟨by decide,
   assign_no_contribution_reward_absent cfgEx [exDecision "k" 0]
     [("k", [exDecision "k" 0])] "k" [] (exDecision "k" 0) []
     (by decide) (by decide) rfl rfl (by decide) (by decide) rfl rfl⟩

/-- C5 (amended): a per-line JSON failure skips only that line — the
file's other records are kept (`specKept`) — but the file IS
quarantined (copied to the unrecoverable directory, counter bumped)
whenever any line had a JSON or timestamp parse error, in addition to
the gzip-corruption case; quarantine is not reserved to decompression
failures as the frozen claim states. -/
theorem load_records_line_error_quarantines (lines : List Line)
    (ids : List String) (st : Stats) (res : LoadResult)
    (h : load_records (.ok lines) ids st = some res) :
    res.records = specKept ids lines ∧
    res.quarantined = lines.any lineErr ∧
    res.stats.unrecoverable
      = st.unrecoverable + (if lines.any lineErr then 1 else 0) ∧
    (∀ res', load_records GFile.corrupt ids st = some res' →
      res'.quarantined = true) := by
  obtain ⟨h1, h2, h3⟩ := load_records_ok_spec lines ids st res h
  refine ⟨h1, h2, h3, ?_⟩
  intro res' h'
  have hres' : res' = ⟨[], ids,
      ⟨st.duplicates, st.uniques, st.unrecoverable + 1⟩, true⟩ := by
    have : some (⟨[], ids,
        ⟨st.duplicates, st.uniques, st.unrecoverable + 1⟩, true⟩ : LoadResult)
        = some res' := h'
    exact (Option.some.inj this).symm
  rw [hres']

/-- Witness for C5 (amended) at a three-line file with a bad middle
line. -/
theorem load_records_line_error_quarantines_witness :
    load_records (GFile.ok exLinesC5) [] ⟨0, 0, 0⟩
      = some ⟨[⟨some "m1", TsField.parsed 1, "b1"⟩,
               ⟨some "m2", TsField.parsed 2, "b2"⟩],
              ["m2", "m1"], ⟨0, 2, 1⟩, true⟩ ∧
    ((⟨[⟨some "m1", TsField.parsed 1, "b1"⟩,
        ⟨some "m2", TsField.parsed 2, "b2"⟩],
       ["m2", "m1"], ⟨0, 2, 1⟩, true⟩ : LoadResult).records
      = specKept [] exLinesC5 ∧
     (⟨[⟨some "m1", TsField.parsed 1, "b1"⟩,
        ⟨some "m2", TsField.parsed 2, "b2"⟩],
       ["m2", "m1"], ⟨0, 2, 1⟩, true⟩ : LoadResult).quarantined
      = exLinesC5.any lineErr) :=
  ⟨by decide,
   by
    have hfull := load_records_line_error_quarantines exLinesC5 [] ⟨0, 0, 0⟩
      ⟨[⟨some "m1", TsField.parsed 1, "b1"⟩,
        ⟨some "m2", TsField.parsed 2, "b2"⟩],
       ["m2", "m1"], ⟨0, 2, 1⟩, true⟩ (by decide)
    exact ⟨hfull.1, hfull.2.1⟩⟩

/-- C6 (amended): a record with an UNPARSEABLE timestamp is skipped
while the rest of the file loads, but the file is quarantined and the
unrecoverable counter incremented (a file-level impact the frozen claim
denies); a record with a MISSING timestamp raises an uncaught
`KeyError`, aborting the load of the whole file instead of rejecting
only that record. -/
theorem load_records_timestamp_behavior (lines : List Line)
    (ids : List String) (st : Stats) :
    ((∀ r, Line.jrec r ∈ lines → (r.msgId).isSome = true) →
      (∃ r, Line.jrec r ∈ lines ∧ r.ts = TsField.missing) →
      load_records (.ok lines) ids st = none) ∧
    (∀ res, load_records (.ok lines) ids st = some res →
      (∃ r, Line.jrec r ∈ lines ∧ r.ts = TsField.unparseable) →
      res.quarantined = true ∧
      res.stats.unrecoverable = st.unrecoverable + 1) := by
  constructor
  · intro hmsg hex
    have hnone := loadLoop_missing_none lines ids 0 false [] hmsg hex
    simp [load_records, hnone]
  · intro res h hex
    obtain ⟨h1, h2, h3⟩ := load_records_ok_spec lines ids st res h
    obtain ⟨r, hmem, hts⟩ := hex
    have hanyt : lines.any lineErr = true :=
      List.any_eq_true.mpr ⟨Line.jrec r, hmem, by simp [lineErr, hts]⟩
    refine ⟨by rw [h2, hanyt], by rw [h3, hanyt]; rfl⟩

/-- Witness for C6 (amended): a missing-timestamp file aborts; an
unparseable-timestamp file is quarantined. -/
theorem load_records_timestamp_behavior_witness :
    load_records (GFile.ok [Line.jrec ⟨some "m3", TsField.missing, "b3"⟩])
      [] ⟨0, 0, 0⟩ = none ∧
    (⟨[], [], ⟨0, 0, 1⟩, true⟩ : LoadResult).quarantined = true :=
  ⟨(load_records_timestamp_behavior
      [Line.jrec ⟨some "m3", TsField.missing, "b3"⟩] [] ⟨0, 0, 0⟩).1
      (by intro r hr; simp at hr; rw [hr]; rfl)
      ⟨⟨some "m3", TsField.missing, "b3"⟩, by simp, rfl⟩,
   ((load_records_timestamp_behavior
      [Line.jrec ⟨some "m4", TsField.unparseable, "b4"⟩] [] ⟨0, 0, 0⟩).2
      ⟨[], [], ⟨0, 0, 1⟩, true⟩ (by decide)
      ⟨⟨some "m4", TsField.unparseable, "b4"⟩, by simp, rfl⟩).1⟩

/-- C7 (amended): for a decision-typed record whose base keys are
present and whose identity check passes, `validate_record` tests ONLY
that the `model` key is present: an empty `model` value is accepted,
and the `count` field is never inspected (any value, or its absence,
is accepted), contrary to the stricter frozen claim. -/
theorem validate_decision_checks_model_presence_only
    (hash : String → String) (hashed hid : String) (r : VRec)
    (ht : (r.timestamp).isSome = true) (hty : r.rtype = some "decision")
    (hh : r.history_id = some hid) (hhash : hash hid = hashed) :
    (r.model.isSome = true → validate_record hash r none hashed = true) ∧
    (r.model = none → validate_record hash r none hashed = false) := by
  obtain ⟨ts, hts⟩ := Option.isSome_iff_exists.mp ht
  constructor
  · intro hm
    obtain ⟨m, hm'⟩ := Option.isSome_iff_exists.mp hm
    simp [validate_record, hts, hty, hh, hm', truthy, hhash]
  · intro hm
    simp [validate_record, hts, hty, hh, hm]

/-- Witness for C7 (amended): a decision with an empty model and a
string count validates; one with no model key is rejected. -/
theorem validate_decision_checks_model_presence_only_witness :
    validate_record (fun _ => "H2") vEx2 none "H2" = true :=
  (validate_decision_checks_model_presence_only (fun _ => "H2") "H2" "h2"
    vEx2 rfl rfl rfl rfl).1 rfl

/-- C8 (amended): an event record contributes `properties.value` when
that key is present (whatever its type), and the configured default
only when `properties` or `value` is absent; a PRESENT non-coercible
value is not replaced by the default — `float()` raises and
`assign_rewards_to_decisions` aborts whenever a live listener
exists. -/
theorem event_value_semantics (cfg : Config) (r : Rec) (st : WState)
    (k : String) (listeners : List Rec) (L : Rec)
    (he : r.rtype = some "event") :
    (r.properties = none → eventValue cfg r = PyVal.pnum cfg.defaultEventValue) ∧
    (∀ props, r.properties = some props → lookupKey props "value" = none →
      eventValue cfg r = PyVal.pnum cfg.defaultEventValue) ∧
    (∀ props v, r.properties = some props → lookupKey props "value" = some v →
      eventValue cfg r = v) ∧
    (lookupKey st k = some listeners → L ∈ listeners →
      expiredB cfg.window L.timestamp r.timestamp = false →
      pyFloat (eventValue cfg r) = none →
      stepRecord cfg st r = none) := by
  refine ⟨?_, ?_, ?_, ?_⟩
  · intro hp; simp [eventValue, hp]
  · intro props hp hl; simp [eventValue, hp, hl]
  · intro props v hp hl; simp [eventValue, hp, hl]
  · intro hlk hL hexp hpf
    have hnd : ¬ r.rtype = some "decision" := by rw [he]; simp
    have hnr : ¬ r.rtype = some "rewards" := by rw [he]; simp
    have hgoal : stepRecord cfg st r
        = mapBuckets cfg r.timestamp (eventValue cfg r) st := by
      simp [stepRecord, hnd, hnr, he]
    rw [hgoal]
    cases hmb : mapBuckets cfg r.timestamp (eventValue cfg r) st with
    | none => rfl
    | some st' =>
      exfalso
      obtain ⟨l', hup, _⟩ :=
        (mapBuckets_lookup cfg r.timestamp (eventValue cfg r) st st' k hmb).2
          listeners hlk
      rw [update_listeners, hpf] at hup
      have hanyt : listeners.any
          (fun L => !expiredB cfg.window L.timestamp r.timestamp) = true :=
        List.any_eq_true.mpr ⟨L, hL, by simp [hexp]⟩
      rw [hanyt] at hup
      simp at hup

/-- Witness for C8 (amended): a live listener plus an event with
`properties.value = "abc"` makes the step abort. -/
theorem event_value_semantics_witness :
    stepRecord cfgEx [("k", [exDecision "k" 0])]
      (exEvent 1 (some [("value", PyVal.pstr "abc")])) = none :=
  (event_value_semantics cfgEx (exEvent 1 (some [("value", PyVal.pstr "abc")]))
    [("k", [exDecision "k" 0])] "k" [exDecision "k" 0] (exDecision "k" 0)
    rfl).2.2.2 rfl (by simp) (by decide) rfl
